import Mathlib

/-!
Shallow embedding of the sn_dbc transaction core (src/builder.rs,
src/verification.rs, src/blst.rs).

Opaque cryptographic values (public keys, key images, commitments,
signatures, hashes, public-key-set descriptors) are modelled as `Nat`.
External cryptographic operations (`RingCtMaterial::sign`,
`PublicKeySet::combine_signatures`, `SpentProof::verify`,
`RingCtTransaction::verify`, the Pedersen `commit`) are passed in as
explicit function parameters, mirroring the fact that the crate consumes
them as opaque backend capabilities.

Rust panics (`assert!` / `assert_eq!`) are modelled by the distinguished
`BuildResult.panicked` outcome, kept apart from recoverable
`BuildResult.err` results.
-/

/-- Error variants of `sn_dbc::Error` used by builder.rs / verification.rs.
Backend (bls / ringct) errors are folded into the opaque `bls` variant. -/
inductive Error where
  | insufficientDecoys
  | missingSpentProofShare (key_image : Nat)
  | publicKeyNotFound
  | spentProofInputLenMismatch
  | spentProofInputKeyImageMismatch
  | publicKeyNotUniqueAcrossOutputs
  | bls (code : Nat)
  deriving DecidableEq, Repr

/-- Outcome of a Rust function that can also panic (assert failure). -/
inductive BuildResult (α : Type) where
  | ok (val : α)
  | err (e : Error)
  | panicked
  deriving DecidableEq, Repr

/-- A revealed (secret) Pedersen commitment opening: amount value and
blinding factor. -/
structure RevealedCommitment where
  value : Nat
  blinding : Nat
  deriving DecidableEq, Repr

/-- `AmountSecrets` is a newtype over `RevealedCommitment` (builder.rs uses
`AmountSecrets::from(RevealedCommitment)`). -/
def AmountSecrets := RevealedCommitment
deriving DecidableEq, Repr

/-- A real spendable input: its (derived) public key and the secret opening. -/
structure TrueInput where
  public_key : Nat
  revealed_commitment : RevealedCommitment
  deriving DecidableEq, Repr

/-- A decoy ring member: public key and public commitment only. -/
structure DecoyInput where
  public_key : Nat
  commitment : Nat
  deriving DecidableEq, Repr

/-- Ring material for one input: the true input plus its decoys. -/
structure MlsagMaterial where
  true_input : TrueInput
  decoy_inputs : List DecoyInput
  deriving DecidableEq, Repr

/-- `MlsagMaterial::new(true_input, decoy_inputs, rng)`: the rng only feeds
the hidden ring randomness, which no claim observes, so it is dropped. -/
def MlsagMaterial.new (t : TrueInput) (ds : List DecoyInput) : MlsagMaterial :=
  ⟨t, ds⟩

/-- A transaction output before signing: recipient public key and amount. -/
structure Output where
  public_key : Nat
  amount : Nat
  deriving DecidableEq, Repr

/-- The accumulated ring-ct material: inputs (rings) and outputs. -/
structure RingCtMaterial where
  inputs : List MlsagMaterial := []
  outputs : List Output := []
  deriving DecidableEq, Repr

/-- A signed ring signature for one input; only its key image is consumed
by this crate. -/
structure Mlsag where
  key_image : Nat
  deriving DecidableEq, Repr

/-- A signed transaction output: its public key and public commitment. -/
structure TxOutput where
  public_key : Nat
  commitment : Nat
  deriving DecidableEq, Repr

/-- A signed `RingCtTransaction`; `hash` models the opaque transaction
hash attribute. -/
structure RingCtTransaction where
  mlsags : List Mlsag
  outputs : List TxOutput
  hash : Nat
  deriving DecidableEq, Repr

/-- One-time owner descriptor: base owner and derivation index. -/
structure OwnerOnce where
  owner_base : Nat
  derivation_index : Nat
  deriving DecidableEq, Repr

/-- One authority's partial spent attestation. `spentbook_sig_share` is the
indexed threshold signature share `(index, share)`. -/
structure SpentProofShare where
  key_image : Nat
  spentbook_pks : Nat
  spentbook_sig_share : Nat × Nat
  public_commitments : List Nat
  deriving DecidableEq, Repr

/-- Content of a complete spent proof. -/
structure SpentProofContent where
  key_image : Nat
  transaction_hash : Nat
  public_commitments : List Nat
  deriving DecidableEq, Repr

/-- A complete spent proof. -/
structure SpentProof where
  content : SpentProofContent
  spentbook_pub_key : Nat
  spentbook_sig : Nat
  deriving DecidableEq, Repr

/-- Accessor `SpentProof::key_image`. -/
def SpentProof.key_image (s : SpentProof) : Nat :=
  s.content.key_image

/-- Accessor `SpentProof::public_commitments`. -/
def SpentProof.public_commitments (s : SpentProof) : List Nat :=
  s.content.public_commitments

/-- `DbcContent::from((owner_base, derivation_index, amount_secrets))`. -/
structure DbcContent where
  owner_base : Nat
  derivation_index : Nat
  amount_secrets : RevealedCommitment
  deriving DecidableEq, Repr

/-- A minted token. -/
structure Dbc where
  content : DbcContent
  transaction : RingCtTransaction
  spent_proofs : List SpentProof
  deriving DecidableEq, Repr

/-- The transaction builder state (src/builder.rs `TransactionBuilder`). -/
structure TransactionBuilder where
  true_inputs : List TrueInput := []
  ringct_material : RingCtMaterial := {}
  output_owner_map : List (Nat × OwnerOnce) := []
  available_decoys : List DecoyInput := []
  decoys_per_input : Nat := 10
  require_all_decoys : Bool := true
  deriving DecidableEq, Repr

/-- The token builder state (src/builder.rs `DbcBuilder`); the spent-proof
share map `BTreeMap<KeyImage, HashSet<SpentProofShare>>` is modelled as an
association list in key order. -/
structure DbcBuilder where
  transaction : RingCtTransaction
  revealed_commitments : List RevealedCommitment
  output_owner_map : List (Nat × OwnerOnce)
  ringct_material : RingCtMaterial
  spent_proof_shares : List (Nat × List SpentProofShare) := []
  deriving DecidableEq, Repr

/-! ## TransactionBuilder operations (src/builder.rs) -/

/-- `TransactionBuilder::add_decoy_inputs`: appends the given decoys after
dropping those whose public key already occurs in the pool held *before*
this call (the Rust code clones the old pool and filters against it). -/
def TransactionBuilder.add_decoy_inputs (b : TransactionBuilder)
    (decoy_inputs : List DecoyInput) : TransactionBuilder :=
  { b with available_decoys := b.available_decoys ++
      decoy_inputs.filter (fun nw =>
        !(b.available_decoys.any (fun old => old.public_key == nw.public_key))) }

/-- `TransactionBuilder::add_true_input`. -/
def TransactionBuilder.add_true_input (b : TransactionBuilder)
    (true_input : TrueInput) : TransactionBuilder :=
  { b with true_inputs := b.true_inputs ++ [true_input] }

/-- `TransactionBuilder::add_input` (single `MlsagMaterial`): records the
true input and pushes the ring material. -/
def TransactionBuilder.add_input (b : TransactionBuilder)
    (mlsag : MlsagMaterial) : TransactionBuilder :=
  let b' := b.add_true_input mlsag.true_input
  { b' with ringct_material :=
      { b'.ringct_material with inputs := b'.ringct_material.inputs ++ [mlsag] } }

/-- `TransactionBuilder::add_inputs` (iterator form): extends only the ring
material's input list. -/
def TransactionBuilder.add_inputs (b : TransactionBuilder)
    (inputs : List MlsagMaterial) : TransactionBuilder :=
  { b with ringct_material :=
      { b.ringct_material with inputs := b.ringct_material.inputs ++ inputs } }

/-- `TransactionBuilder::input_owners`. -/
def TransactionBuilder.input_owners (b : TransactionBuilder) : List Nat :=
  b.true_inputs.map (·.public_key)

/-- `TransactionBuilder::inputs_amount_sum`. -/
def TransactionBuilder.inputs_amount_sum (b : TransactionBuilder) : Nat :=
  (b.true_inputs.map (·.revealed_commitment.value)).sum

/-- `TransactionBuilder::inputs` (read-only view of true inputs). -/
def TransactionBuilder.inputs (b : TransactionBuilder) : List TrueInput :=
  b.true_inputs

/-! ## The build pipeline of `TransactionBuilder::build`, staged -/

/-- Stage 1 of `build`: public keys of all true inputs. -/
def truePublicKeys (b : TransactionBuilder) : List Nat :=
  b.true_inputs.map (·.public_key)

/-- Filter a decoy pool against a list of true-input public keys. -/
def filterDecoysAux (pks : List Nat) (pool : List DecoyInput) : List DecoyInput :=
  pool.filter (fun d => pks.all (fun pk => pk != d.public_key))

/-- Stage 2 of `build`: remove available decoys that are actually true
inputs. -/
def filteredDecoys (b : TransactionBuilder) : List DecoyInput :=
  filterDecoysAux (truePublicKeys b) b.available_decoys

/-- Stage 3 of `build`: drop true inputs already present in the
pre-existing ring material. -/
def retainedTrueInputs (b : TransactionBuilder) : List TrueInput :=
  b.true_inputs.filter (fun t =>
    !(b.ringct_material.inputs.any
      (fun m => m.true_input.public_key == t.public_key)))

/-- Stage 4 of `build`: total number of decoys required. -/
def numRequiredDecoys (b : TransactionBuilder) : Nat :=
  (retainedTrueInputs b).length * b.decoys_per_input

/-- Fuel-indexed helper for `chunkList`; the fuel dominates the list length
at every call, so the fuel-exhausted equation is never taken. -/
def chunkListFuel {α : Type} : Nat → Nat → List α → List (List α)
  | _, _, [] => []
  | _, 0, _ :: _ => []
  | 0, _ + 1, _ :: _ => []
  | f + 1, n + 1, a :: l => ((a :: l).take (n + 1)) :: chunkListFuel f (n + 1) (l.drop n)

/-- `slice::chunks`: consecutive chunks of size `n` (`n = 0` is unreachable
in `build`, which special-cases it; we return no chunks there to stay
total). -/
def chunkList {α : Type} (n : Nat) (l : List α) : List (List α) :=
  chunkListFuel l.length n l

/-- Stage 6 of `build`: group available decoys into chunks of
`decoys_per_input` (the Rust code special-cases chunk size zero to an empty
chunk list, which is the second equation of `chunkList`). -/
def decoyChunks (b : TransactionBuilder) : List (List DecoyInput) :=
  chunkList b.decoys_per_input (filteredDecoys b)

/-- Stage 7 of `build`: pad the chunk list with empty chunks up to the
number of retained true inputs. -/
def paddedChunks (b : TransactionBuilder) : List (List DecoyInput) :=
  decoyChunks b ++
    List.replicate ((retainedTrueInputs b).length - (decoyChunks b).length) []

/-- Stage 8 of `build`: the final ring-ct material, pairing each retained
true input with its decoy chunk and appending to the pre-existing inputs. -/
def buildMaterial (b : TransactionBuilder) : RingCtMaterial :=
  { inputs := b.ringct_material.inputs ++
      ((retainedTrueInputs b).zip (paddedChunks b)).map
        (fun p => MlsagMaterial.new p.1 p.2),
    outputs := b.ringct_material.outputs }

/-- `DbcBuilder::new`. -/
def DbcBuilder.new (transaction : RingCtTransaction)
    (revealed_commitments : List RevealedCommitment)
    (output_owner_map : List (Nat × OwnerOnce))
    (ringct_material : RingCtMaterial) : DbcBuilder :=
  { transaction := transaction, revealed_commitments := revealed_commitments,
    output_owner_map := output_owner_map, ringct_material := ringct_material,
    spent_proof_shares := [] }

/-- `TransactionBuilder::build`, parameterized by the backend signing
operation `RingCtMaterial::sign` (the rng is folded into `sign`; it only
feeds the opaque ring randomness). The two `assert!`s guarding the padding
branch are modelled by the `panicked` outcome. -/
def TransactionBuilder.build
    (sign : RingCtMaterial → Except Error (RingCtTransaction × List RevealedCommitment))
    (b : TransactionBuilder) : BuildResult DbcBuilder :=
  if b.require_all_decoys = true ∧
      (filteredDecoys b).length < numRequiredDecoys b then
    .err .insufficientDecoys
  else if (decoyChunks b).length < (retainedTrueInputs b).length ∧
      (b.require_all_decoys = true ∨
        ¬(numRequiredDecoys b = 0 ∨
            (filteredDecoys b).length < numRequiredDecoys b)) then
    .panicked
  else
    match sign (buildMaterial b) with
    | .error e => .err e
    | .ok (transaction, revealed_commitments) =>
        .ok (DbcBuilder.new transaction revealed_commitments
          b.output_owner_map (buildMaterial b))

/-! ## TransactionVerifier (src/verification.rs) -/

/-- `Iterator::position`: index of the first element satisfying `p`. -/
def position {α : Type} (p : α → Bool) : List α → Option Nat
  | [] => none
  | a :: l => if p a then some 0 else (position p l).map (· + 1)

/-- Ordering on the `(input index, proof)` pairs built during ordering
reconciliation (`sort_by_key(|s| s.0)`). -/
def pairLe (a b : Nat × SpentProof) : Prop :=
  a.1 ≤ b.1

instance : DecidableRel pairLe := fun a b => Nat.decLe a.1 b.1

instance : IsTotal (Nat × SpentProof) pairLe :=
  ⟨fun a b => Nat.le_total a.1 b.1⟩

instance : IsTrans (Nat × SpentProof) pairLe :=
  ⟨fun _ _ _ h h' => Nat.le_trans h h'⟩

/-- The `spent_proofs_found` list: each proof paired with the position of
the first transaction input whose key image matches it; proofs matching no
input are dropped by `filter_map`. -/
def spentProofsFound (transaction : RingCtTransaction)
    (spent_proofs : List SpentProof) : List (Nat × SpentProof) :=
  spent_proofs.filterMap (fun s =>
    (position (fun m => m.key_image == s.key_image) transaction.mlsags).map
      (fun idx => (idx, s)))

/-- `spent_proofs_found.sort_by_key(|s| s.0)` followed by dropping the
indices. -/
def spentProofsSorted (transaction : RingCtTransaction)
    (spent_proofs : List SpentProof) : List SpentProof :=
  (List.insertionSort pairLe (spentProofsFound transaction spent_proofs)).map
    Prod.snd

/-- The ordered public-commitment lists handed to the cryptographic
backend's `RingCtTransaction::verify`. -/
def publicCommitmentsOf (transaction : RingCtTransaction)
    (spent_proofs : List SpentProof) : List (List Nat) :=
  (spentProofsSorted transaction spent_proofs).map (·.public_commitments)

/-- The per-proof verification loop: run `SpentProof::verify` on each proof
in order, propagating the first failure. -/
def verifyEach (pv : SpentProof → Nat → Except Error Unit) (h : Nat) :
    List SpentProof → Except Error Unit
  | [] => .ok ()
  | s :: rest =>
    match pv s h with
    | .error e => .error e
    | .ok () => verifyEach pv h rest

/-- `TransactionVerifier::verify`, parameterized by the backend operations
`SpentProof::verify` (`pv`, with the `KeyManager` folded in) and
`RingCtTransaction::verify` (`tv`). The spent-proof `BTreeSet` is taken as
a list. -/
def TransactionVerifier.verify
    (pv : SpentProof → Nat → Except Error Unit)
    (tv : RingCtTransaction → List (List Nat) → Except Error Unit)
    (transaction : RingCtTransaction)
    (spent_proofs : List SpentProof) : Except Error Unit :=
  if spent_proofs.length ≠ transaction.mlsags.length then
    .error .spentProofInputLenMismatch
  else if ((transaction.outputs.map (·.public_key)).dedup).length ≠
      transaction.outputs.length then
    .error .publicKeyNotUniqueAcrossOutputs
  else if spent_proofs.any (fun s =>
      !(transaction.mlsags.any (fun m => m.key_image == s.key_image))) then
    .error .spentProofInputKeyImageMismatch
  else
    match verifyEach pv transaction.hash spent_proofs with
    | .error e => .error e
    | .ok () => tv transaction (publicCommitmentsOf transaction spent_proofs)

/-! ## DbcBuilder operations (src/builder.rs) -/

/-- `DbcBuilder::add_spent_proof_share`: insert the share into the set held
for its key image, creating the entry if absent (`entry(..).or_default()`
followed by `HashSet::insert`; inserting an already-present share is a
no-op). The `BTreeMap` is kept as an association list ordered by key. -/
def addShareToMap (share : SpentProofShare) :
    List (Nat × List SpentProofShare) → List (Nat × List SpentProofShare)
  | [] => [(share.key_image, [share])]
  | (k, shares) :: rest =>
    if share.key_image < k then
      (share.key_image, [share]) :: (k, shares) :: rest
    else if share.key_image = k then
      (k, if share ∈ shares then shares else shares ++ [share]) :: rest
    else
      (k, shares) :: addShareToMap share rest

/-- `DbcBuilder::add_spent_proof_share`. -/
def DbcBuilder.add_spent_proof_share (db : DbcBuilder)
    (share : SpentProofShare) : DbcBuilder :=
  { db with spent_proof_shares := addShareToMap share db.spent_proof_shares }

/-- The body of `DbcBuilder::spent_proofs`, iterating over the share map in
key order and short-circuiting at the first error (`collect::<Result<_>>`).
`combine` is the backend `PublicKeySet::combine_signatures`; `txh` is the
transaction hash. -/
def spentProofsGo
    (combine : Nat → List (Nat × Nat) → Except Error Nat) (txh : Nat) :
    List (Nat × List SpentProofShare) → Except Error (List SpentProof)
  | [] => .ok []
  | (key_image, shares) :: rest =>
    match shares with
    | [] => .error (.missingSpentProofShare key_image)
    | any_share :: _ =>
      match combine any_share.spentbook_pks
          (shares.map (·.spentbook_sig_share)) with
      | .error e => .error e
      | .ok spentbook_sig =>
        match spentProofsGo combine txh rest with
        | .error e => .error e
        | .ok proofs =>
          .ok ({ content := { key_image := key_image, transaction_hash := txh,
                              public_commitments := any_share.public_commitments },
                 spentbook_pub_key := any_share.spentbook_pks,
                 spentbook_sig := spentbook_sig } :: proofs)

/-- `DbcBuilder::spent_proofs`: build the complete spent proofs from the
collected shares. -/
def DbcBuilder.spent_proofs (db : DbcBuilder)
    (combine : Nat → List (Nat × Nat) → Except Error Nat) :
    Except Error (List SpentProof) :=
  spentProofsGo combine db.transaction.hash db.spent_proof_shares

/-- The `owner_once_list` computation of `DbcBuilder::build`: look up each
output's one-time owner, short-circuiting at the first missing key. -/
def lookupOwners (owner_map : List (Nat × OwnerOnce)) :
    List TxOutput → Except Error (List OwnerOnce)
  | [] => .ok []
  | o :: rest =>
    match owner_map.lookup o.public_key with
    | none => .error .publicKeyNotFound
    | some w =>
      match lookupOwners owner_map rest with
      | .error e => .error e
      | .ok ws => .ok (w :: ws)

/-- The final loop of `DbcBuilder::build`: for each output (zipped with its
owner), select the revealed commitments whose re-derived public commitment
equals the output's commitment; `assert_eq!(amount_secrets_list.len(), 1)`
is modelled by `panicked` on any other count. `ocs` is the precomputed
`output_commitments` list of `(commitment, opening)` pairs. -/
def makeDbcs (ocs : List (Nat × RevealedCommitment))
    (transaction : RingCtTransaction) (spent_proofs : List SpentProof) :
    List (TxOutput × OwnerOnce) →
      BuildResult (List (Dbc × OwnerOnce × RevealedCommitment))
  | [] => .ok []
  | (output, owner_once) :: rest =>
    match (ocs.filter (fun cr => cr.1 == output.commitment)).map (·.2) with
    | [r] =>
      match makeDbcs ocs transaction spent_proofs rest with
      | .ok l =>
        .ok (({ content := { owner_base := owner_once.owner_base,
                             derivation_index := owner_once.derivation_index,
                             amount_secrets := r },
                transaction := transaction,
                spent_proofs := spent_proofs }, owner_once, r) :: l)
      | .err e => .err e
      | .panicked => .panicked
    | _ => .panicked

/-- `DbcBuilder::build`, parameterized by the backend operations: `combine`
(threshold-signature combination), `pv`/`tv` (the two verification
delegates) and `commit` (the Pedersen commitment re-derivation
`RevealedCommitment::commit`). -/
def DbcBuilder.build (db : DbcBuilder)
    (combine : Nat → List (Nat × Nat) → Except Error Nat)
    (pv : SpentProof → Nat → Except Error Unit)
    (tv : RingCtTransaction → List (List Nat) → Except Error Unit)
    (commit : RevealedCommitment → Nat) :
    BuildResult (List (Dbc × OwnerOnce × RevealedCommitment)) :=
  match db.spent_proofs combine with
  | .error e => .err e
  | .ok spent_proofs =>
    match TransactionVerifier.verify pv tv db.transaction spent_proofs with
    | .error e => .err e
    | .ok () =>
      let output_commitments := db.revealed_commitments.map
        (fun r => (commit r, r))
      match lookupOwners db.output_owner_map db.transaction.outputs with
      | .error e => .err e
      | .ok owner_once_list =>
        makeDbcs output_commitments db.transaction spent_proofs
          (db.transaction.outputs.zip owner_once_list)

/-! ## Helper lemmas -/

/-- Filtering a decoy pool against the same key list twice equals filtering
once. -/
theorem filterDecoysAux_idem (pks : List Nat) (pool : List DecoyInput) :
    filterDecoysAux pks (filterDecoysAux pks pool) = filterDecoysAux pks pool := by
  unfold filterDecoysAux
  rw [List.filter_filter]
  induction pool with
  | nil => rfl
  | cons d rest ih =>
    by_cases h : (pks.all fun pk => pk != d.public_key) = true
    · simp [List.filter, h, ih]
    · simp only [Bool.not_eq_true] at h
      simp [List.filter, h, ih]

/-- Every element of every chunk produced by `chunkListFuel` comes from the
chunked list. -/
theorem chunkListFuel_subset {α : Type} :
    ∀ (f n : Nat) (l : List α), ∀ c ∈ chunkListFuel f n l, ∀ x ∈ c, x ∈ l := by
  intro f
  induction f with
  | zero =>
    intro n l c hc x hx
    match n, l with
    | _, [] => simp [chunkListFuel] at hc
    | 0, _ :: _ => simp [chunkListFuel] at hc
    | _ + 1, _ :: _ => simp [chunkListFuel] at hc
  | succ f ih =>
    intro n l c hc x hx
    match n, l with
    | _, [] => simp [chunkListFuel] at hc
    | 0, _ :: _ => simp [chunkListFuel] at hc
    | n + 1, a :: l =>
      rw [chunkListFuel] at hc
      rcases List.mem_cons.mp hc with h | h
      · subst h
        exact List.take_subset _ _ hx
      · have := ih (n + 1) (l.drop n) c h x hx
        exact List.mem_cons_of_mem a (List.drop_subset _ _ this)

/-- Every element of every chunk produced by `chunkList` comes from the
chunked list. -/
theorem chunkList_subset {α : Type} (n : Nat) (l : List α) :
    ∀ c ∈ chunkList n l, ∀ x ∈ c, x ∈ l :=
  chunkListFuel_subset l.length n l

/-- C9: `TransactionBuilder::add_decoy_inputs` is an idempotent union on
the decoy pool keyed by public key: a new decoy is appended exactly when no
decoy with the same public key is already held at call entry, adding the
same list twice equals adding it once, the true-input list is untouched,
and the resulting pool is independent of the true inputs held. -/
theorem add_decoy_inputs_idempotent_union (b : TransactionBuilder)
    (l : List DecoyInput) (ts : List TrueInput) :
    (b.add_decoy_inputs l).add_decoy_inputs l = b.add_decoy_inputs l ∧
    (b.add_decoy_inputs l).available_decoys = b.available_decoys ++
      l.filter (fun nw =>
        !(b.available_decoys.any (fun old => old.public_key == nw.public_key))) ∧
    (b.add_decoy_inputs l).true_inputs = b.true_inputs ∧
    (({ b with true_inputs := ts } :
        TransactionBuilder).add_decoy_inputs l).available_decoys =
      (b.add_decoy_inputs l).available_decoys := by
  refine ⟨?_, rfl, rfl, rfl⟩
  have hnil : l.filter (fun nw =>
      !((b.add_decoy_inputs l).available_decoys.any
        (fun old => old.public_key == nw.public_key))) = [] := by
    rw [List.filter_eq_nil_iff]
    intro nw hnw
    simp only [Bool.not_eq_true, Bool.not_eq_false]
    rw [TransactionBuilder.add_decoy_inputs, List.any_append]
    by_cases hold : b.available_decoys.any
        (fun old => old.public_key == nw.public_key) = true
    · simp [hold]
    · have hmem : nw ∈ l.filter (fun nw =>
          !(b.available_decoys.any (fun old => old.public_key == nw.public_key))) :=
        List.mem_filter.mpr ⟨hnw, by simp [hold]⟩
      have : (l.filter (fun nw =>
          !(b.available_decoys.any (fun old => old.public_key == nw.public_key)))).any
            (fun old => old.public_key == nw.public_key) = true :=
        List.any_eq_true.mpr ⟨nw, hmem, by simp⟩
      simp [this]
  rw [TransactionBuilder.add_decoy_inputs, hnil]
  simp

/-- C10: `add_inputs` (iterator form) extends only the ring material's
input list and leaves `true_inputs` unchanged, so it is invisible to
`input_owners`, `inputs_amount_sum` and `inputs`; `add_input` additionally
records the true input, so the two paths disagree on the accessors for the
same material. -/
theorem add_inputs_vs_add_input (b : TransactionBuilder)
    (m : MlsagMaterial) (ms : List MlsagMaterial) :
    (b.add_inputs ms).true_inputs = b.true_inputs ∧
    (b.add_inputs ms).ringct_material.inputs = b.ringct_material.inputs ++ ms ∧
    (b.add_inputs ms).input_owners = b.input_owners ∧
    (b.add_inputs ms).inputs_amount_sum = b.inputs_amount_sum ∧
    (b.add_inputs ms).inputs = b.inputs ∧
    (b.add_input m).true_inputs = b.true_inputs ++ [m.true_input] ∧
    (b.add_input m).ringct_material.inputs = b.ringct_material.inputs ++ [m] ∧
    (b.add_input m).inputs ≠ (b.add_inputs [m]).inputs ∧
    (b.add_input m).input_owners.length = b.input_owners.length + 1 ∧
    (b.add_input m).inputs_amount_sum =
      b.inputs_amount_sum + m.true_input.revealed_commitment.value := by
  refine ⟨rfl, rfl, rfl, rfl, rfl, rfl, rfl, ?_, ?_, ?_⟩
  · intro h
    have : (b.add_input m).inputs.length = (b.add_inputs [m]).inputs.length := by
      rw [h]
    simp [TransactionBuilder.add_input, TransactionBuilder.add_inputs,
      TransactionBuilder.inputs, TransactionBuilder.add_true_input] at this
  · simp [TransactionBuilder.add_input, TransactionBuilder.input_owners,
      TransactionBuilder.add_true_input]
  · simp [TransactionBuilder.add_input, TransactionBuilder.inputs_amount_sum,
      TransactionBuilder.add_true_input]

/-- C4: strict decoy policy. With `require_all_decoys = true`, `t` retained
true inputs and a non-conflicting decoy pool smaller than
`t * decoys_per_input`, `TransactionBuilder::build` fails with
`InsufficientDecoys` and produces no transaction. -/
theorem strict_decoy_policy
    (sign : RingCtMaterial → Except Error (RingCtTransaction × List RevealedCommitment))
    (b : TransactionBuilder)
    (hreq : b.require_all_decoys = true)
    (hlt : (filteredDecoys b).length <
      (retainedTrueInputs b).length * b.decoys_per_input) :
    TransactionBuilder.build sign b = .err .insufficientDecoys := by
  rw [TransactionBuilder.build, if_pos ⟨hreq, hlt⟩]

/-- C4 witness: a builder with one true input, one required decoy and an
empty non-conflicting pool (its only decoy collides with the true input). -/
theorem strict_decoy_policy_witness :
    TransactionBuilder.build (fun _ => .ok (⟨[], [], 0⟩, []))
      { true_inputs := [⟨1, ⟨5, 0⟩⟩], available_decoys := [⟨1, 9⟩],
        decoys_per_input := 1, require_all_decoys := true } =
      .err .insufficientDecoys :=
  strict_decoy_policy _ _ rfl (by decide)

/-- Length of the padded chunk list: at least the number of retained true
inputs. -/
theorem paddedChunks_length_ge (b : TransactionBuilder) :
    (retainedTrueInputs b).length ≤ (paddedChunks b).length := by
  simp only [paddedChunks, List.length_append, List.length_replicate]
  omega

/-- C7: lenient decoy policy. With `require_all_decoys = false` and a
non-conflicting pool smaller than required, `build` succeeds whenever the
backend signing succeeds, and every retained true input is paired with a
ring (the chunk list is padded with empty chunks), possibly of size 1. -/
theorem lenient_decoy_policy
    (sign : RingCtMaterial → Except Error (RingCtTransaction × List RevealedCommitment))
    (b : TransactionBuilder) (tx : RingCtTransaction)
    (rcs : List RevealedCommitment)
    (hreq : b.require_all_decoys = false)
    (hlt : (filteredDecoys b).length < numRequiredDecoys b)
    (hsign : sign (buildMaterial b) = .ok (tx, rcs)) :
    TransactionBuilder.build sign b =
      .ok (DbcBuilder.new tx rcs b.output_owner_map (buildMaterial b)) ∧
    ((buildMaterial b).inputs.drop b.ringct_material.inputs.length).map
      (·.true_input) = retainedTrueInputs b := by
  constructor
  · rw [TransactionBuilder.build, if_neg, if_neg, hsign]
    · rintro ⟨-, h | h⟩
      · rw [hreq] at h
        cases h
      · exact h (Or.inr hlt)
    · rintro ⟨h, -⟩
      rw [hreq] at h
      cases h
  · show ((b.ringct_material.inputs ++
      ((retainedTrueInputs b).zip (paddedChunks b)).map
        (fun p => MlsagMaterial.new p.1 p.2)).drop
          b.ringct_material.inputs.length).map (·.true_input) =
      retainedTrueInputs b
    rw [List.drop_left, List.map_map]
    exact List.map_fst_zip _ _ (paddedChunks_length_ge b)

/-- The builder used by the lenient-policy witness: one true input, one
decoy required, only a conflicting decoy available. -/
def lenientWitnessBuilder : TransactionBuilder :=
  { true_inputs := [⟨1, ⟨5, 0⟩⟩], available_decoys := [⟨1, 9⟩],
    decoys_per_input := 1, require_all_decoys := false }

/-- C7 witness: one true input, one decoy required but none available under
the lenient policy; build succeeds with an empty (size-1) ring. -/
theorem lenient_decoy_policy_witness :
    TransactionBuilder.build (fun _ => .ok (⟨[], [], 0⟩, []))
        lenientWitnessBuilder =
      .ok (DbcBuilder.new ⟨[], [], 0⟩ []
        lenientWitnessBuilder.output_owner_map
        (buildMaterial lenientWitnessBuilder)) ∧
    ((buildMaterial lenientWitnessBuilder).inputs.drop
        lenientWitnessBuilder.ringct_material.inputs.length).map
      (·.true_input) = retainedTrueInputs lenientWitnessBuilder :=
  lenient_decoy_policy _ _ _ _ rfl (by decide) rfl

/-- Filtering the decoy pool up front does not change `filteredDecoys`. -/
theorem filteredDecoys_prefiltered (b : TransactionBuilder) :
    filteredDecoys { b with available_decoys := filteredDecoys b } =
      filteredDecoys b := by
  show filterDecoysAux (truePublicKeys b)
    (filterDecoysAux (truePublicKeys b) b.available_decoys) =
    filterDecoysAux (truePublicKeys b) b.available_decoys
  exact filterDecoysAux_idem _ _

/-- C5: decoy self-exclusion. Decoys whose public key equals a true input's
public key are silently removed before counting or allocation: `build`
behaves exactly as if the pool had been pre-filtered (so such decoys are
never counted toward availability and their presence is not an error), and
no ring assembled by `build` contains a decoy whose public key is a
true-input public key. -/
theorem decoy_self_exclusion
    (sign : RingCtMaterial → Except Error (RingCtTransaction × List RevealedCommitment))
    (b : TransactionBuilder) :
    TransactionBuilder.build sign
        { b with available_decoys := filteredDecoys b } =
      TransactionBuilder.build sign b ∧
    (∀ db, TransactionBuilder.build sign b = .ok db →
      ∀ m ∈ db.ringct_material.inputs.drop b.ringct_material.inputs.length,
        ∀ d ∈ m.decoy_inputs, d.public_key ∉ truePublicKeys b) := by
  have h1 := filteredDecoys_prefiltered b
  have h3 : decoyChunks { b with available_decoys := filteredDecoys b } =
      decoyChunks b := by
    unfold decoyChunks
    rw [h1]
  have h4 : paddedChunks { b with available_decoys := filteredDecoys b } =
      paddedChunks b := by
    unfold paddedChunks
    rw [h3]
    rfl
  have h5 : buildMaterial { b with available_decoys := filteredDecoys b } =
      buildMaterial b := by
    unfold buildMaterial
    rw [h4]
    rfl
  constructor
  · unfold TransactionBuilder.build
    rw [h1, h3, h5]
    rfl
  · intro db hok m hm d hd
    have hmat : db.ringct_material = buildMaterial b := by
      unfold TransactionBuilder.build at hok
      split_ifs at hok
      rcases hs : sign (buildMaterial b) with e | ⟨t, r⟩ <;> rw [hs] at hok
      · cases hok
      · cases hok
        rfl
    rw [hmat] at hm
    have hm' : m ∈ ((retainedTrueInputs b).zip (paddedChunks b)).map
        (fun p => MlsagMaterial.new p.1 p.2) := by
      have : (buildMaterial b).inputs.drop b.ringct_material.inputs.length =
          ((retainedTrueInputs b).zip (paddedChunks b)).map
            (fun p => MlsagMaterial.new p.1 p.2) := by
        show (b.ringct_material.inputs ++ _).drop _ = _
        rw [List.drop_left]
      rwa [this] at hm
    rcases List.mem_map.mp hm' with ⟨p, hp, rfl⟩
    have hchunk : p.2 ∈ paddedChunks b := (List.of_mem_zip hp).2
    have hd' : d ∈ p.2 := hd
    rcases List.mem_append.mp (by rw [paddedChunks] at hchunk; exact hchunk)
        with hc | hc
    · have hdf : d ∈ filteredDecoys b := chunkList_subset _ _ _ hc _ hd'
      have hall := (List.mem_filter.mp hdf).2
      intro hmem
      have := List.all_eq_true.mp hall d.public_key hmem
      simp at this
    · have : p.2 = [] := List.eq_of_mem_replicate hc
      rw [this] at hd'
      cases hd'

/-- The builder used by the self-exclusion witness: a pool holding one
conflicting and one clean decoy. -/
def exclusionWitnessBuilder : TransactionBuilder :=
  { true_inputs := [⟨1, ⟨5, 0⟩⟩], available_decoys := [⟨1, 9⟩, ⟨2, 8⟩],
    decoys_per_input := 1, require_all_decoys := true }

/-- C5 witness: build succeeds on `exclusionWitnessBuilder` and the decoy
with key 2 appearing in the assembled ring is not a true-input key. -/
theorem decoy_self_exclusion_witness :
    (2 : Nat) ∉ truePublicKeys exclusionWitnessBuilder :=
  (decoy_self_exclusion (fun _ => .ok (⟨[], [], 0⟩, []))
      exclusionWitnessBuilder).2
    (DbcBuilder.new ⟨[], [], 0⟩ [] []
      (buildMaterial exclusionWitnessBuilder))
    (by decide) (MlsagMaterial.new ⟨1, ⟨5, 0⟩⟩ [⟨2, 8⟩]) (by decide) ⟨2, 8⟩
    (by decide)

/-! ## C6: no agreement check on share public-key-sets -/

/-- Replace the announced public-key-set of every share after the first by
the first share's set (the first share is the one `shares.iter().next()`
yields). -/
def normalizeShareList : List SpentProofShare → List SpentProofShare
  | [] => []
  | s :: rest => s :: rest.map (fun t => { t with spentbook_pks := s.spentbook_pks })

/-- Unfolding equation of `normalizeShareList` on a nonempty list. -/
theorem normalizeShareList_cons (s : SpentProofShare)
    (tail : List SpentProofShare) :
    normalizeShareList (s :: tail) =
      s :: tail.map (fun t => { t with spentbook_pks := s.spentbook_pks }) :=
  rfl

/-- A `DbcBuilder` with every non-first share's announced public-key-set
replaced by the first share's set, entry by entry. -/
def normalizePks (db : DbcBuilder) : DbcBuilder :=
  { db with spent_proof_shares :=
      (db.spent_proof_shares.map (fun e => (e.1, normalizeShareList e.2))) }

/-- `spentProofsGo` is blind to the announced public-key-sets of all shares
after the first of each entry. -/
theorem spentProofsGo_normalize
    (combine : Nat → List (Nat × Nat) → Except Error Nat) (txh : Nat) :
    ∀ entries : List (Nat × List SpentProofShare),
      spentProofsGo combine txh
          (entries.map (fun e => (e.1, normalizeShareList e.2))) =
        spentProofsGo combine txh entries := by
  intro entries
  induction entries with
  | nil => rfl
  | cons e rest ih =>
    rcases e with ⟨k, shares⟩
    match shares with
    | [] =>
      simp only [List.map_cons, spentProofsGo]
      rfl
    | s :: tail =>
      have hsig : (tail.map
          (fun t => { t with spentbook_pks := s.spentbook_pks })).map
            (·.spentbook_sig_share) = tail.map (·.spentbook_sig_share) := by
        rw [List.map_map]
        rfl
      simp only [List.map_cons, normalizeShareList_cons, spentProofsGo,
        hsig, ih]

/-- C6 (amended): `DbcBuilder::spent_proofs` performs no agreement check on
the shares' announced authority public-key-sets: its result is unchanged
when every non-first share's set is replaced by the first share's set, so
whether combination succeeds is decided solely by the backend
`combine_signatures` on the first share's set and the shares' signature
shares, and disagreeing sets are silently combined whenever the backend
accepts. -/
theorem spent_proofs_ignores_tail_pks (db : DbcBuilder)
    (combine : Nat → List (Nat × Nat) → Except Error Nat) :
    (normalizePks db).spent_proofs combine = db.spent_proofs combine :=
  spentProofsGo_normalize combine db.transaction.hash db.spent_proof_shares

/-- C6 counterexample: two shares for key image 5 announcing different
public-key-sets (1 and 2); with a backend whose combination succeeds,
`spent_proofs` silently produces a proof from the disagreeing shares
instead of failing. -/
theorem spent_proofs_heterogeneous_counterexample :
    (⟨5, 1, (0, 100), [77]⟩ : SpentProofShare).spentbook_pks ≠
      (⟨5, 2, (1, 200), [77]⟩ : SpentProofShare).spentbook_pks ∧
    DbcBuilder.spent_proofs
        ⟨⟨[⟨5⟩], [], 0⟩, [], [], ⟨[], []⟩,
          [(5, [⟨5, 1, (0, 100), [77]⟩, ⟨5, 2, (1, 200), [77]⟩])]⟩
        (fun _ _ => .ok 0) =
      .ok [⟨⟨5, 0, [77]⟩, 1, 0⟩] :=
  ⟨by decide, rfl⟩

/-! ## C2: verify structural checks -/

/-- `verify` fails with the length-mismatch error whenever the proof count
differs from the input count (the first check). -/
theorem verify_len_err
    (pv : SpentProof → Nat → Except Error Unit)
    (tv : RingCtTransaction → List (List Nat) → Except Error Unit)
    (tx : RingCtTransaction) (proofs : List SpentProof)
    (h : proofs.length ≠ tx.mlsags.length) :
    TransactionVerifier.verify pv tv tx proofs =
      .error .spentProofInputLenMismatch := by
  rw [TransactionVerifier.verify, if_pos h]

/-- `verify` fails with the key-image-mismatch error when the counts match,
the output keys are duplicate-free, and some proof's key image is absent
from the inputs. -/
theorem verify_cov_err
    (pv : SpentProof → Nat → Except Error Unit)
    (tv : RingCtTransaction → List (List Nat) → Except Error Unit)
    (tx : RingCtTransaction) (proofs : List SpentProof)
    (hlen : proofs.length = tx.mlsags.length)
    (huniq : ((tx.outputs.map (·.public_key)).dedup).length = tx.outputs.length)
    (hcov : ∃ p ∈ proofs, p.key_image ∉ tx.mlsags.map Mlsag.key_image) :
    TransactionVerifier.verify pv tv tx proofs =
      .error .spentProofInputKeyImageMismatch := by
  obtain ⟨p, hp, hnot⟩ := hcov
  have hfalse : tx.mlsags.any (fun m => m.key_image == p.key_image) = false := by
    rw [List.any_eq_false]
    intro m hm
    simp only [beq_iff_eq]
    intro he
    exact hnot (List.mem_map.mpr ⟨m, hm, he⟩)
  rw [TransactionVerifier.verify, if_neg (fun h => h hlen),
    if_neg (fun h => h huniq), if_pos]
  exact List.any_eq_true.mpr ⟨p, hp, by simp [hfalse]⟩

/-- When `verify` succeeds, the proof count equals the input count and
every proof's key image occurs among the inputs' key images. -/
theorem verify_ok_imp
    (pv : SpentProof → Nat → Except Error Unit)
    (tv : RingCtTransaction → List (List Nat) → Except Error Unit)
    (tx : RingCtTransaction) (proofs : List SpentProof)
    (hok : TransactionVerifier.verify pv tv tx proofs = .ok ()) :
    proofs.length = tx.mlsags.length ∧
      ∀ p ∈ proofs, p.key_image ∈ tx.mlsags.map Mlsag.key_image := by
  rw [TransactionVerifier.verify] at hok
  split_ifs at hok with h1 h2 h3
  refine ⟨not_ne_iff.mp h1, ?_⟩
  intro p hp
  have h3' : proofs.any (fun s =>
      !(tx.mlsags.any (fun m => m.key_image == s.key_image))) = false :=
    Bool.eq_false_iff.mpr h3
  have hone := List.any_eq_false.mp h3' p hp
  have : tx.mlsags.any (fun m => m.key_image == p.key_image) = true := by
    rcases Bool.eq_false_or_eq_true
        (tx.mlsags.any (fun m => m.key_image == p.key_image)) with h | h
    · exact h
    · exact absurd (by simp [h]) hone
  rcases List.any_eq_true.mp this with ⟨m, hm, he⟩
  exact List.mem_map.mpr ⟨m, hm, (beq_iff_eq.mp he)⟩

/-- C2 counterexample: two distinct proofs sharing key image 1 against
inputs with key images 1 and 2 (all distinct). Both checked backends
accept, `verify` succeeds, yet no proof matches input key image 2, so
proofs and inputs are not in bijection and a proof's key image does not
match exactly one input. -/
theorem verify_bijection_counterexample :
    TransactionVerifier.verify (fun _ _ => .ok ()) (fun _ _ => .ok ())
        ⟨[⟨1⟩, ⟨2⟩], [], 0⟩
        [⟨⟨1, 0, [11]⟩, 0, 0⟩, ⟨⟨1, 0, [22]⟩, 0, 0⟩] = .ok () ∧
    ([⟨⟨1, 0, [11]⟩, 0, 0⟩, ⟨⟨1, 0, [22]⟩, 0, 0⟩] :
      List SpentProof).map SpentProof.key_image = [1, 1] ∧
    (⟨[⟨1⟩, ⟨2⟩], [], 0⟩ : RingCtTransaction).mlsags.map Mlsag.key_image =
      [1, 2] ∧
    (([⟨⟨1, 0, [11]⟩, 0, 0⟩, ⟨⟨1, 0, [22]⟩, 0, 0⟩] :
      List SpentProof).filter (fun p => p.key_image == 2)).length = 0 ∧
    (⟨⟨1, 0, [11]⟩, 0, 0⟩ : SpentProof) ≠ ⟨⟨1, 0, [22]⟩, 0, 0⟩ :=
  ⟨rfl, rfl, rfl, rfl, by decide⟩

/-- C2 (amended): `verify` succeeds only when the proof count equals the
input count and every proof's key image appears among the inputs' key
images (membership, not a bijection: several distinct proofs may share one
key image); it fails with the length-mismatch error whenever the counts
differ, and — when the counts match and the output public keys are unique,
since that check runs in between — it fails with the key-image-mismatch
error when some proof's key image is absent from the inputs. -/
theorem verify_structural_checks
    (pv : SpentProof → Nat → Except Error Unit)
    (tv : RingCtTransaction → List (List Nat) → Except Error Unit)
    (tx : RingCtTransaction) (proofs : List SpentProof) :
    (TransactionVerifier.verify pv tv tx proofs = .ok () →
      proofs.length = tx.mlsags.length ∧
      ∀ p ∈ proofs, p.key_image ∈ tx.mlsags.map Mlsag.key_image) ∧
    (proofs.length ≠ tx.mlsags.length →
      TransactionVerifier.verify pv tv tx proofs =
        .error .spentProofInputLenMismatch) ∧
    (proofs.length = tx.mlsags.length →
      (tx.outputs.map (·.public_key)).Nodup →
      (∃ p ∈ proofs, p.key_image ∉ tx.mlsags.map Mlsag.key_image) →
      TransactionVerifier.verify pv tv tx proofs =
        .error .spentProofInputKeyImageMismatch) :=
  ⟨verify_ok_imp pv tv tx proofs, verify_len_err pv tv tx proofs,
   fun hlen hnd =>
     verify_cov_err pv tv tx proofs hlen
       (by rw [List.dedup_eq_self.mpr hnd, List.length_map])⟩

/-- C2 witness: the length-mismatch branch on one input and zero proofs,
and the key-image-mismatch branch on one input and one non-matching
proof. -/
theorem verify_structural_checks_witness :
    TransactionVerifier.verify (fun _ _ => .ok ()) (fun _ _ => .ok ())
        ⟨[⟨1⟩], [], 0⟩ [] = .error .spentProofInputLenMismatch ∧
    TransactionVerifier.verify (fun _ _ => .ok ()) (fun _ _ => .ok ())
        ⟨[⟨1⟩], [], 0⟩ [⟨⟨3, 0, [33]⟩, 0, 0⟩] =
      .error .spentProofInputKeyImageMismatch :=
  ⟨(verify_structural_checks _ _ ⟨[⟨1⟩], [], 0⟩ []).2.1 (by decide),
   (verify_structural_checks _ _ ⟨[⟨1⟩], [], 0⟩
       [⟨⟨3, 0, [33]⟩, 0, 0⟩]).2.2 (by decide) (by decide)
     ⟨⟨⟨3, 0, [33]⟩, 0, 0⟩, by decide, by decide⟩⟩

/-! ## C1: behavior when a transaction input has no spent-proof shares -/

/-- Pigeonhole: a duplicate-free list of the same length as `mk` that
avoids some element of `mk` cannot be contained in `mk`. -/
theorem exists_not_mem_of_avoiding (keys mk : List Nat)
    (hnd : keys.Nodup) (hlen : keys.length = mk.length)
    (k : Nat) (hk : k ∈ mk) (hknot : k ∉ keys) :
    ∃ x ∈ keys, x ∉ mk := by
  by_contra hall
  push_neg at hall
  have hsub : keys.toFinset ⊆ mk.toFinset.erase k := by
    intro x hx
    rw [List.mem_toFinset] at hx
    refine Finset.mem_erase.mpr ⟨?_, List.mem_toFinset.mpr (hall x hx)⟩
    intro he
    exact hknot (he ▸ hx)
  have h1 : keys.toFinset.card = keys.length := List.toFinset_card_of_nodup hnd
  have h2 : (mk.toFinset.erase k).card = mk.toFinset.card - 1 :=
    Finset.card_erase_of_mem (List.mem_toFinset.mpr hk)
  have h3 : mk.toFinset.card ≤ mk.length := List.toFinset_card_le mk
  have h4 : 1 ≤ mk.toFinset.card :=
    Finset.card_pos.mpr ⟨k, List.mem_toFinset.mpr hk⟩
  have h5 := Finset.card_le_card hsub
  omega

/-- The key images of the proofs produced by `spentProofsGo` are exactly
the keys of the share map, in order. -/
theorem spentProofsGo_ok_keys
    (combine : Nat → List (Nat × Nat) → Except Error Nat) (txh : Nat) :
    ∀ (entries : List (Nat × List SpentProofShare))
      (proofs : List SpentProof),
      spentProofsGo combine txh entries = .ok proofs →
      proofs.map SpentProof.key_image = entries.map Prod.fst := by
  intro entries
  induction entries with
  | nil =>
    intro proofs h
    cases h
    rfl
  | cons e rest ih =>
    intro proofs h
    rcases e with ⟨k, shares⟩
    match shares with
    | [] => simp [spentProofsGo] at h
    | s :: tail =>
      rw [spentProofsGo] at h
      rcases hc : combine s.spentbook_pks
          ((s :: tail).map (·.spentbook_sig_share)) with e' | sig <;>
        rw [hc] at h
      · cases h
      · rcases hr : spentProofsGo combine txh rest with e' | prs <;>
          rw [hr] at h
        · cases h
        · cases h
          simp only [List.map_cons]
          rw [ih prs hr]
          rfl

/-- C1 (amended): if the transaction contains an input key image with no
entry in the spent-proof-share map (which is the state after zero shares
were added for it) then, for any backend operations, `DbcBuilder::build`
returns an error and emits no tokens; the error is however not in general
the missing-share error naming the key image — on the concrete
counterexample it is the verifier's length-mismatch error, the
missing-share error arising only from a map entry holding an empty share
set. -/
theorem missing_share_build_fails (db : DbcBuilder)
    (combine : Nat → List (Nat × Nat) → Except Error Nat)
    (pv : SpentProof → Nat → Except Error Unit)
    (tv : RingCtTransaction → List (List Nat) → Except Error Unit)
    (commit : RevealedCommitment → Nat)
    (hnd : (db.spent_proof_shares.map Prod.fst).Nodup)
    (m : Mlsag) (hm : m ∈ db.transaction.mlsags)
    (hmiss : m.key_image ∉ db.spent_proof_shares.map Prod.fst) :
    ∃ e, db.build combine pv tv commit = .err e := by
  rcases hsp : db.spent_proofs combine with e | proofs
  · exact ⟨e, by rw [DbcBuilder.build, hsp]⟩
  have hkeys : proofs.map SpentProof.key_image =
      db.spent_proof_shares.map Prod.fst :=
    spentProofsGo_ok_keys combine db.transaction.hash _ proofs hsp
  have hverify : ∃ e, TransactionVerifier.verify pv tv db.transaction proofs =
      .error e := by
    by_cases hlen : proofs.length = db.transaction.mlsags.length
    · by_cases huniq : ((db.transaction.outputs.map (·.public_key)).dedup).length =
          db.transaction.outputs.length
      · have hcov : ∃ p ∈ proofs,
            p.key_image ∉ db.transaction.mlsags.map Mlsag.key_image := by
          have hnd' : (proofs.map SpentProof.key_image).Nodup := by
            rw [hkeys]
            exact hnd
          have hlen' : (proofs.map SpentProof.key_image).length =
              (db.transaction.mlsags.map Mlsag.key_image).length := by
            rw [List.length_map, List.length_map]
            exact hlen
          have hknot : m.key_image ∉ proofs.map SpentProof.key_image := by
            rw [hkeys]
            exact hmiss
          rcases exists_not_mem_of_avoiding _ _ hnd' hlen' m.key_image
              (List.mem_map.mpr ⟨m, hm, rfl⟩) hknot with ⟨x, hx, hxnot⟩
          rcases List.mem_map.mp hx with ⟨p, hp, rfl⟩
          exact ⟨p, hp, hxnot⟩
        exact ⟨_, verify_cov_err pv tv db.transaction proofs hlen huniq hcov⟩
      · refine ⟨.publicKeyNotUniqueAcrossOutputs, ?_⟩
        rw [TransactionVerifier.verify, if_neg (fun h => h hlen), if_pos huniq]
    · exact ⟨_, verify_len_err pv tv db.transaction proofs hlen⟩
  rcases hverify with ⟨e, he⟩
  refine ⟨e, ?_⟩
  rw [DbcBuilder.build, hsp]
  dsimp only
  rw [he]

/-- C1 counterexample: one transaction input with key image 5 and zero
shares added (empty share map). `spent_proofs` succeeds with the empty
set (it is not a missing-share failure), and `build` fails with the
verifier's length-mismatch error, which does not name the key image —
refuting the claimed missing-share error. -/
theorem missing_share_counterexample :
    DbcBuilder.spent_proofs ⟨⟨[⟨5⟩], [], 0⟩, [], [], ⟨[], []⟩, []⟩
        (fun _ _ => .ok 0) = .ok [] ∧
    DbcBuilder.build ⟨⟨[⟨5⟩], [], 0⟩, [], [], ⟨[], []⟩, []⟩
        (fun _ _ => .ok 0) (fun _ _ => .ok ()) (fun _ _ => .ok ())
        (fun _ => 0) = .err .spentProofInputLenMismatch ∧
    Error.spentProofInputLenMismatch ≠ Error.missingSpentProofShare 5 :=
  ⟨rfl, rfl, by decide⟩

/-- C1 witness: the amended theorem applied to the one-input zero-share
builder. -/
theorem missing_share_build_fails_witness :
    ∃ e, DbcBuilder.build ⟨⟨[⟨5⟩], [], 0⟩, [], [], ⟨[], []⟩, []⟩
        (fun _ _ => .ok 0) (fun _ _ => .ok ()) (fun _ _ => .ok ())
        (fun _ => 0) = .err e :=
  missing_share_build_fails _ _ _ _ _ (by decide) ⟨5⟩ (by decide) (by decide)

/-! ## C8: the exactly-one-matching-commitment assertion -/

/-- The `output_commitments` filter of `DbcBuilder::build`, reduced to a
filter on the raw revealed commitments. -/
theorem filter_map_commit (commit : RevealedCommitment → Nat) (c : Nat) :
    ∀ rcs : List RevealedCommitment,
      ((rcs.map (fun r => (commit r, r))).filter
        (fun cr => cr.1 == c)).map (·.2) =
      rcs.filter (fun r => commit r == c) := by
  intro rcs
  induction rcs with
  | nil => rfl
  | cons r rest ih =>
    by_cases h : commit r == c
    · simp [List.filter_cons, h, ih]
    · rw [Bool.not_eq_true] at h
      simp [List.filter_cons, h, ih]

/-- `makeDbcs` panics whenever some listed output's matching-commitment
list is not a singleton. -/
theorem makeDbcs_panics (ocs : List (Nat × RevealedCommitment))
    (tx : RingCtTransaction) (sps : List SpentProof) :
    ∀ l : List (TxOutput × OwnerOnce),
      (∃ e ∈ l, ((ocs.filter (fun cr => cr.1 == e.1.commitment)).map
        (·.2)).length ≠ 1) →
      makeDbcs ocs tx sps l = .panicked := by
  intro l
  induction l with
  | nil =>
    rintro ⟨e, he, -⟩
    cases he
  | cons hd rest ih =>
    rintro ⟨e, he, hbad⟩
    rcases hd with ⟨o, w⟩
    rcases List.mem_cons.mp he with rfl | he'
    · dsimp only at hbad
      rcases hml : (ocs.filter (fun cr => cr.1 == o.commitment)).map (·.2)
          with _ | ⟨r, _ | _⟩
      · rw [makeDbcs, hml]
      · rw [hml] at hbad
        simp at hbad
      · rw [makeDbcs, hml]
    · rcases hml : (ocs.filter (fun cr => cr.1 == o.commitment)).map (·.2)
          with _ | ⟨r, _ | _⟩
      · rw [makeDbcs, hml]
      · rw [makeDbcs, hml, ih ⟨e, he', hbad⟩]
      · rw [makeDbcs, hml]

/-- `makeDbcs` does not panic when every listed output's
matching-commitment list is a singleton. -/
theorem makeDbcs_no_panic (ocs : List (Nat × RevealedCommitment))
    (tx : RingCtTransaction) (sps : List SpentProof) :
    ∀ l : List (TxOutput × OwnerOnce),
      (∀ e ∈ l, ((ocs.filter (fun cr => cr.1 == e.1.commitment)).map
        (·.2)).length = 1) →
      makeDbcs ocs tx sps l ≠ .panicked := by
  intro l
  induction l with
  | nil =>
    intro _ h
    cases h
  | cons hd rest ih =>
    intro hall
    rcases hd with ⟨o, w⟩
    have h1 := hall (o, w) (List.mem_cons_self _ _)
    rcases hml : (ocs.filter (fun cr => cr.1 == o.commitment)).map (·.2)
        with _ | ⟨r, _ | _⟩
    · rw [hml] at h1
      simp at h1
    · rw [makeDbcs, hml]
      have hrest := ih (fun e he => hall e (List.mem_cons_of_mem _ he))
      rcases hmk : makeDbcs ocs tx sps rest with out | e | _
      · simp
      · simp
      · exact absurd hmk hrest
    · rw [hml] at h1
      simp at h1

/-- `lookupOwners` yields one owner per output. -/
theorem lookupOwners_length (m : List (Nat × OwnerOnce)) :
    ∀ (outs : List TxOutput) (ws : List OwnerOnce),
      lookupOwners m outs = .ok ws → ws.length = outs.length := by
  intro outs
  induction outs with
  | nil =>
    intro ws h
    cases h
    rfl
  | cons o rest ih =>
    intro ws h
    rw [lookupOwners] at h
    rcases hl : m.lookup o.public_key with _ | w <;> rw [hl] at h
    · cases h
    · rcases hr : lookupOwners m rest with e | ws' <;> rw [hr] at h
      · cases h
      · cases h
        simp [ih ws' hr]

/-- `DbcBuilder::build` hits the `assert_eq!` (panics) when verification
passes, owners resolve, and some output's matching-commitment count is not
one. -/
theorem dbc_build_panics (db : DbcBuilder)
    (combine : Nat → List (Nat × Nat) → Except Error Nat)
    (pv : SpentProof → Nat → Except Error Unit)
    (tv : RingCtTransaction → List (List Nat) → Except Error Unit)
    (commit : RevealedCommitment → Nat)
    (proofs : List SpentProof)
    (hsp : db.spent_proofs combine = .ok proofs)
    (hv : TransactionVerifier.verify pv tv db.transaction proofs = .ok ())
    (ws : List OwnerOnce)
    (hw : lookupOwners db.output_owner_map db.transaction.outputs = .ok ws)
    (hbad : ∃ o ∈ db.transaction.outputs,
      (db.revealed_commitments.filter
        (fun r => commit r == o.commitment)).length ≠ 1) :
    db.build combine pv tv commit = .panicked := by
  rw [DbcBuilder.build, hsp]
  dsimp only
  rw [hv]
  dsimp only
  rw [hw]
  apply makeDbcs_panics
  rcases hbad with ⟨o, ho, hne⟩
  rcases List.mem_iff_get.mp ho with ⟨i, hi⟩
  have hws : ws.length = db.transaction.outputs.length :=
    lookupOwners_length _ _ _ hw
  have hzlen : i < (db.transaction.outputs.zip ws).length := by
    rw [List.length_zip]
    omega
  refine ⟨(db.transaction.outputs.zip ws).get ⟨i, hzlen⟩,
    List.get_mem _ _ hzlen, ?_⟩
  have hz : (db.transaction.outputs.zip ws).get ⟨i, hzlen⟩ =
      (db.transaction.outputs.get i, ws.get ⟨i.1, by omega⟩) := by
    simp [List.get_eq_getElem, List.getElem_zip]
  rw [hz, hi]
  rw [filter_map_commit]
  exact hne

/-- `DbcBuilder::build` never panics when every output's
matching-commitment count is exactly one. -/
theorem dbc_build_no_panic (db : DbcBuilder)
    (combine : Nat → List (Nat × Nat) → Except Error Nat)
    (pv : SpentProof → Nat → Except Error Unit)
    (tv : RingCtTransaction → List (List Nat) → Except Error Unit)
    (commit : RevealedCommitment → Nat)
    (hgood : ∀ o ∈ db.transaction.outputs,
      (db.revealed_commitments.filter
        (fun r => commit r == o.commitment)).length = 1) :
    db.build combine pv tv commit ≠ .panicked := by
  rw [DbcBuilder.build]
  rcases hsp : db.spent_proofs combine with e | proofs
  · simp
  dsimp only
  rcases hv : TransactionVerifier.verify pv tv db.transaction proofs
      with e | u
  · simp
  rcases u
  dsimp only
  rcases hw : lookupOwners db.output_owner_map db.transaction.outputs
      with e | ws
  · simp
  dsimp only
  apply makeDbcs_no_panic
  rintro ⟨o, w⟩ he
  have ho : o ∈ db.transaction.outputs := (List.of_mem_zip he).1
  rw [filter_map_commit]
  exact hgood o ho

/-- Modelled from the spec: the contract of the external signing backend
(`bls_ringct::RingCtMaterial::sign`, outside this crate), from the §3
invariant that secret openings are 1:1 with the signed transaction's
public output commitments: each output's commitment is matched by exactly
one revealed commitment. -/
def SignContract (commit : RevealedCommitment → Nat)
    (sign : RingCtMaterial → Except Error (RingCtTransaction × List RevealedCommitment)) :
    Prop :=
  ∀ mat tx rcs, sign mat = .ok (tx, rcs) →
    ∀ o ∈ tx.outputs,
      (rcs.filter (fun r => commit r == o.commitment)).length = 1

/-- C8: after verification and owner lookup succeed, an output whose
re-derived matching-commitment count is zero or more than one makes
`DbcBuilder::build` panic (the `assert_eq!`), not return a recoverable
error; when every count is exactly one the assertion never fires; and a
builder produced by a successful `TransactionBuilder::build` whose signing
backend meets the 1:1 commitment contract never trips the assertion,
whatever shares were added afterwards. -/
theorem output_match_assertion
    (combine : Nat → List (Nat × Nat) → Except Error Nat)
    (pv : SpentProof → Nat → Except Error Unit)
    (tv : RingCtTransaction → List (List Nat) → Except Error Unit)
    (commit : RevealedCommitment → Nat) :
    (∀ (db : DbcBuilder) (proofs : List SpentProof) (ws : List OwnerOnce),
      db.spent_proofs combine = .ok proofs →
      TransactionVerifier.verify pv tv db.transaction proofs = .ok () →
      lookupOwners db.output_owner_map db.transaction.outputs = .ok ws →
      (∃ o ∈ db.transaction.outputs,
        (db.revealed_commitments.filter
          (fun r => commit r == o.commitment)).length ≠ 1) →
      db.build combine pv tv commit = .panicked) ∧
    (∀ db : DbcBuilder,
      (∀ o ∈ db.transaction.outputs,
        (db.revealed_commitments.filter
          (fun r => commit r == o.commitment)).length = 1) →
      db.build combine pv tv commit ≠ .panicked) ∧
    (∀ (sign : RingCtMaterial → Except Error (RingCtTransaction × List RevealedCommitment))
        (b : TransactionBuilder) (db : DbcBuilder)
        (sps : List (Nat × List SpentProofShare)),
      SignContract commit sign →
      TransactionBuilder.build sign b = .ok db →
      DbcBuilder.build { db with spent_proof_shares := sps }
        combine pv tv commit ≠ .panicked) := by
  refine ⟨fun db proofs ws hsp hv hw hbad =>
      dbc_build_panics db combine pv tv commit proofs hsp hv ws hw hbad,
    fun db hgood => dbc_build_no_panic db combine pv tv commit hgood,
    ?_⟩
  intro sign b db sps hcontract hok
  rw [TransactionBuilder.build] at hok
  split_ifs at hok
  rcases hs : sign (buildMaterial b) with e | ⟨t, r⟩ <;> rw [hs] at hok
  · cases hok
  · cases hok
    exact dbc_build_no_panic _ combine pv tv commit
      (fun o ho => hcontract (buildMaterial b) t r hs o ho)

/-- C8 witness: a builder whose single output (commitment 7) has zero
matching revealed commitments; verification and owner lookup succeed and
build panics. -/
theorem output_match_assertion_witness :
    DbcBuilder.build ⟨⟨[], [⟨1, 7⟩], 0⟩, [], [(1, ⟨10, 0⟩)], ⟨[], []⟩, []⟩
        (fun _ _ => .ok 0) (fun _ _ => .ok ()) (fun _ _ => .ok ())
        (fun r => r.value) = .panicked :=
  (output_match_assertion (fun _ _ => .ok 0) (fun _ _ => .ok ())
      (fun _ _ => .ok ()) (fun r => r.value)).1
    ⟨⟨[], [⟨1, 7⟩], 0⟩, [], [(1, ⟨10, 0⟩)], ⟨[], []⟩, []⟩ [] [⟨10, 0⟩]
    rfl rfl rfl ⟨⟨1, 7⟩, by decide, by decide⟩

/-! ## C3: ordering reconciliation -/

/-- If `position` finds an index, the element there satisfies the
predicate. -/
theorem position_spec {α : Type} (p : α → Bool) :
    ∀ (l : List α) (i : Nat), position p l = some i →
      ∃ h : i < l.length, p (l.get ⟨i, h⟩) = true := by
  intro l
  induction l with
  | nil =>
    intro i h
    cases h
  | cons a t ih =>
    intro i h
    rw [position] at h
    by_cases hp : p a
    · rw [if_pos hp] at h
      cases h
      exact ⟨Nat.succ_pos _, hp⟩
    · rw [if_neg hp] at h
      rcases ho : position p t with _ | j <;> rw [ho] at h
      · cases h
      · rw [Option.map_some'] at h
        cases h
        rcases ih j ho with ⟨hj, hpj⟩
        exact ⟨Nat.succ_lt_succ hj, hpj⟩

/-- `position` finds an index whenever some element satisfies the
predicate. -/
theorem position_isSome {α : Type} (p : α → Bool) :
    ∀ l : List α, (∃ a ∈ l, p a = true) → ∃ i, position p l = some i := by
  intro l
  induction l with
  | nil =>
    rintro ⟨a, ha, -⟩
    cases ha
  | cons a t ih =>
    rintro ⟨x, hx, hpx⟩
    by_cases hp : p a
    · exact ⟨0, by rw [position, if_pos hp]⟩
    · rcases List.mem_cons.mp hx with rfl | hx'
      · exact absurd hpx hp
      · rcases ih ⟨x, hx', hpx⟩ with ⟨j, hj⟩
        exact ⟨j + 1, by rw [position, if_neg hp, hj]; rfl⟩

/-- The input index a spent proof with key image `k` is matched to: the
position of the first transaction input with that key image. -/
def proofIdx (tx : RingCtTransaction) (k : Nat) : Nat :=
  (position (fun m => m.key_image == k) tx.mlsags).getD 0

/-- For a covered key image, `position` finds exactly `proofIdx`, and the
input there carries that key image. -/
theorem proofIdx_spec (tx : RingCtTransaction) (k : Nat)
    (hk : k ∈ tx.mlsags.map Mlsag.key_image) :
    position (fun m => m.key_image == k) tx.mlsags = some (proofIdx tx k) ∧
    ∃ h : proofIdx tx k < tx.mlsags.length,
      (tx.mlsags.get ⟨proofIdx tx k, h⟩).key_image = k := by
  rcases List.mem_map.mp hk with ⟨m, hm, rfl⟩
  rcases position_isSome (fun x => x.key_image == m.key_image) tx.mlsags
      ⟨m, hm, by simp⟩ with ⟨i, hi⟩
  have hpi : proofIdx tx m.key_image = i := by
    rw [proofIdx, hi]
    rfl
  constructor
  · rw [hpi]
    exact hi
  · rcases position_spec _ tx.mlsags i hi with ⟨hlt, hp⟩
    rw [hpi]
    exact ⟨hlt, beq_iff_eq.mp hp⟩

/-- `proofIdx` is injective on covered key images. -/
theorem proofIdx_inj (tx : RingCtTransaction) (k1 k2 : Nat)
    (h1 : k1 ∈ tx.mlsags.map Mlsag.key_image)
    (h2 : k2 ∈ tx.mlsags.map Mlsag.key_image)
    (he : proofIdx tx k1 = proofIdx tx k2) : k1 = k2 := by
  rcases (proofIdx_spec tx k1 h1).2 with ⟨ha, hka⟩
  rcases (proofIdx_spec tx k2 h2).2 with ⟨hb, hkb⟩
  rw [← hka, ← hkb]
  have hf : (⟨proofIdx tx k1, ha⟩ : Fin tx.mlsags.length) =
      ⟨proofIdx tx k2, hb⟩ := Fin.mk_eq_mk.mpr he
  rw [hf]

/-- Under coverage, the `filter_map` drops nothing: the matched pair list
is just the proofs tagged with their input indices. -/
theorem spentProofsFound_eq_map (tx : RingCtTransaction) :
    ∀ proofs : List SpentProof,
      (∀ p ∈ proofs, p.key_image ∈ tx.mlsags.map Mlsag.key_image) →
      spentProofsFound tx proofs =
        proofs.map (fun s => (proofIdx tx s.key_image, s)) := by
  intro proofs
  induction proofs with
  | nil =>
    intro _
    rfl
  | cons s rest ih =>
    intro hcov
    have hpos := (proofIdx_spec tx s.key_image
      (hcov s (List.mem_cons_self s rest))).1
    show List.filterMap _ (s :: rest) = _
    rw [List.filterMap_cons]
    have : (position (fun m => m.key_image == s.key_image) tx.mlsags).map
        (fun idx => (idx, s)) = some (proofIdx tx s.key_image, s) := by
      rw [hpos, Option.map_some']
    rw [this, List.map_cons]
    exact congrArg _ (ih (fun p hp => hcov p (List.mem_cons_of_mem s hp)))

/-- A duplicate-free list of naturals below `n` of length `n` is a
permutation of `range n`. -/
theorem perm_range_of_nodup (keys : List Nat) (n : Nat)
    (hnd : keys.Nodup) (hlt : ∀ x ∈ keys, x < n)
    (hlen : keys.length = n) : keys.Perm (List.range n) := by
  have hsub : keys ⊆ List.range n := fun x hx => List.mem_range.mpr (hlt x hx)
  exact (List.subperm_of_subset hnd hsub).perm_of_length_le
    (by rw [List.length_range, hlen])

/-- The index components of the insertion-sorted pair list are sorted. -/
theorem sorted_pairs_fst (l : List (Nat × SpentProof)) :
    List.Sorted (· ≤ ·) ((List.insertionSort pairLe l).map Prod.fst) :=
  List.Pairwise.map Prod.fst (fun _ _ h => h)
    (List.sorted_insertionSort pairLe l)

/-- Core of C3: the ordered commitment lists have one entry per input, and
the i-th entry comes from a proof whose key image equals the i-th input's
key image. -/
theorem publicCommitments_pointwise (tx : RingCtTransaction)
    (proofs : List SpentProof)
    (hnd_pr : (proofs.map SpentProof.key_image).Nodup)
    (hlen : proofs.length = tx.mlsags.length)
    (hcov : ∀ p ∈ proofs, p.key_image ∈ tx.mlsags.map Mlsag.key_image) :
    (publicCommitmentsOf tx proofs).length = tx.mlsags.length ∧
    ∀ i (hi : i < tx.mlsags.length),
      ∃ p, p ∈ proofs ∧
        p.key_image = (tx.mlsags.get ⟨i, hi⟩).key_image ∧
        (publicCommitmentsOf tx proofs)[i]? = some p.public_commitments := by
  have hfound : spentProofsFound tx proofs =
      proofs.map (fun s => (proofIdx tx s.key_image, s)) :=
    spentProofsFound_eq_map tx proofs hcov
  have hperm : (List.insertionSort pairLe (spentProofsFound tx proofs)).Perm
      (spentProofsFound tx proofs) :=
    List.perm_insertionSort pairLe (spentProofsFound tx proofs)
  have hkeys_eq : (spentProofsFound tx proofs).map Prod.fst =
      proofs.map (fun s => proofIdx tx s.key_image) := by
    rw [hfound, List.map_map]
    rfl
  have hcomp : proofs.map (fun s => proofIdx tx s.key_image) =
      (proofs.map SpentProof.key_image).map (proofIdx tx) := by
    rw [List.map_map]
    rfl
  have hnd_keys : (proofs.map (fun s => proofIdx tx s.key_image)).Nodup := by
    rw [hcomp]
    refine List.Nodup.map_on ?_ hnd_pr
    intro x hx y hy he
    rcases List.mem_map.mp hx with ⟨p, hp, rfl⟩
    rcases List.mem_map.mp hy with ⟨q, hq, rfl⟩
    exact proofIdx_inj tx _ _ (hcov p hp) (hcov q hq) he
  have hlt_keys : ∀ x ∈ proofs.map (fun s => proofIdx tx s.key_image),
      x < tx.mlsags.length := by
    intro x hx
    rcases List.mem_map.mp hx with ⟨p, hp, rfl⟩
    rcases (proofIdx_spec tx p.key_image (hcov p hp)).2 with ⟨h, -⟩
    exact h
  have hlen_keys : (proofs.map (fun s => proofIdx tx s.key_image)).length =
      tx.mlsags.length := by
    rw [List.length_map, hlen]
  have hperm_range : ((spentProofsFound tx proofs).map Prod.fst).Perm
      (List.range tx.mlsags.length) := by
    rw [hkeys_eq]
    exact perm_range_of_nodup _ _ hnd_keys hlt_keys hlen_keys
  have hsorted_keys : ((List.insertionSort pairLe
      (spentProofsFound tx proofs)).map Prod.fst) =
      List.range tx.mlsags.length :=
    List.eq_of_perm_of_sorted ((hperm.map Prod.fst).trans hperm_range)
      (sorted_pairs_fst (spentProofsFound tx proofs))
      (List.sorted_le_range tx.mlsags.length)
  have hlen_sorted : (List.insertionSort pairLe
      (spentProofsFound tx proofs)).length = tx.mlsags.length := by
    have h := congrArg List.length hsorted_keys
    rw [List.length_map, List.length_range] at h
    exact h
  have hlen_pc : (publicCommitmentsOf tx proofs).length =
      tx.mlsags.length := by
    rw [publicCommitmentsOf, spentProofsSorted, List.length_map,
      List.length_map, hlen_sorted]
  refine ⟨hlen_pc, ?_⟩
  intro i hi
  have hi' : i < (List.insertionSort pairLe
      (spentProofsFound tx proofs)).length := by
    rw [hlen_sorted]
    exact hi
  have hfst : ((List.insertionSort pairLe
      (spentProofsFound tx proofs)).get ⟨i, hi'⟩).1 = i := by
    have h1 : ((List.insertionSort pairLe
        (spentProofsFound tx proofs)).map Prod.fst)[i]? = some i := by
      rw [hsorted_keys,
        List.getElem?_eq_getElem (by rw [List.length_range]; exact hi),
        List.getElem_range]
    rw [List.getElem?_map, List.getElem?_eq_getElem hi',
      Option.map_some'] at h1
    rw [List.get_eq_getElem]
    exact Option.some.inj h1
  have hmem : (List.insertionSort pairLe
      (spentProofsFound tx proofs)).get ⟨i, hi'⟩ ∈
      spentProofsFound tx proofs :=
    hperm.mem_iff.mp (List.get_mem _ _ _)
  have hmem2 : (List.insertionSort pairLe
      (spentProofsFound tx proofs)).get ⟨i, hi'⟩ ∈
      proofs.map (fun s => (proofIdx tx s.key_image, s)) := by
    rw [← hfound]
    exact hmem
  rcases List.mem_map.mp hmem2 with ⟨s, hs, heq⟩
  have hs_idx : proofIdx tx s.key_image = i :=
    (congrArg Prod.fst heq).trans hfst
  have hkey : s.key_image = (tx.mlsags.get ⟨i, hi⟩).key_image := by
    rcases (proofIdx_spec tx s.key_image (hcov s hs)).2 with ⟨h, hk⟩
    have hf : (⟨proofIdx tx s.key_image, h⟩ : Fin tx.mlsags.length) =
        ⟨i, hi⟩ := Fin.mk_eq_mk.mpr hs_idx
    rw [hf] at hk
    exact hk.symm
  refine ⟨s, hs, hkey, ?_⟩
  have hsnd : ((List.insertionSort pairLe
      (spentProofsFound tx proofs)).get ⟨i, hi'⟩).2 = s :=
    (congrArg Prod.snd heq).symm
  rw [publicCommitmentsOf, spentProofsSorted, List.getElem?_map,
    List.getElem?_map, List.getElem?_eq_getElem hi']
  rw [List.get_eq_getElem] at hsnd
  simp [hsnd]

/-- C3: ordering reconciliation. Under the state in which the final
delegation is reached (distinct proof key images, one proof per input,
every proof key image covered by the inputs), the commitment-list argument
handed to the backend (`publicCommitmentsOf`, the argument of `tv` in
`TransactionVerifier.verify`) has one entry per input, its i-th entry is
the public-commitment list of a proof whose key image equals the i-th
input's key image, and the result is invariant under permuting the proof
set (the iteration order of the `BTreeSet`). -/
theorem ordering_reconciliation (tx : RingCtTransaction)
    (proofs : List SpentProof)
    (hnd_pr : (proofs.map SpentProof.key_image).Nodup)
    (hlen : proofs.length = tx.mlsags.length)
    (hcov : ∀ p ∈ proofs, p.key_image ∈ tx.mlsags.map Mlsag.key_image) :
    ((publicCommitmentsOf tx proofs).length = tx.mlsags.length ∧
     ∀ i (hi : i < tx.mlsags.length),
       ∃ p, p ∈ proofs ∧
         p.key_image = (tx.mlsags.get ⟨i, hi⟩).key_image ∧
         (publicCommitmentsOf tx proofs)[i]? = some p.public_commitments) ∧
    ∀ proofs2 : List SpentProof, proofs2.Perm proofs →
      publicCommitmentsOf tx proofs2 = publicCommitmentsOf tx proofs := by
  refine ⟨publicCommitments_pointwise tx proofs hnd_pr hlen hcov, ?_⟩
  intro proofs2 hp2
  have hnd2 : (proofs2.map SpentProof.key_image).Nodup :=
    ((hp2.map SpentProof.key_image).nodup_iff).mpr hnd_pr
  have hlen2 : proofs2.length = tx.mlsags.length := hp2.length_eq.trans hlen
  have hcov2 : ∀ p ∈ proofs2, p.key_image ∈ tx.mlsags.map Mlsag.key_image :=
    fun p hp => hcov p (hp2.mem_iff.mp hp)
  obtain ⟨hl1, hpt1⟩ := publicCommitments_pointwise tx proofs hnd_pr hlen hcov
  obtain ⟨hl2, hpt2⟩ :=
    publicCommitments_pointwise tx proofs2 hnd2 hlen2 hcov2
  apply List.ext_getElem?
  intro j
  by_cases hj : j < tx.mlsags.length
  · obtain ⟨p, hp, hk, hsome⟩ := hpt1 j hj
    obtain ⟨q, hq, hk2, hsome2⟩ := hpt2 j hj
    rw [hsome, hsome2]
    have hqp : q ∈ proofs := hp2.mem_iff.mp hq
    have hqe : q = p :=
      List.inj_on_of_nodup_map hnd_pr hqp hp (hk2.trans hk.symm)
    rw [hqe]
  · rw [List.getElem?_eq_none (by rw [hl2]; omega),
      List.getElem?_eq_none (by rw [hl1]; omega)]

/-- C3 witness: inputs with key images 10 then 20, proofs supplied in the
reverse order; the first commitment list handed to the backend is that of
the proof with key image 10. -/
theorem ordering_reconciliation_witness :
    ∃ p, p ∈ ([⟨⟨20, 0, [22]⟩, 0, 0⟩, ⟨⟨10, 0, [11]⟩, 0, 0⟩] :
        List SpentProof) ∧
      p.key_image = ((⟨[⟨10⟩, ⟨20⟩], [], 0⟩ :
        RingCtTransaction).mlsags.get ⟨0, by decide⟩).key_image ∧
      (publicCommitmentsOf ⟨[⟨10⟩, ⟨20⟩], [], 0⟩
        [⟨⟨20, 0, [22]⟩, 0, 0⟩, ⟨⟨10, 0, [11]⟩, 0, 0⟩])[0]? =
        some p.public_commitments :=
  (ordering_reconciliation ⟨[⟨10⟩, ⟨20⟩], [], 0⟩
      [⟨⟨20, 0, [22]⟩, 0, 0⟩, ⟨⟨10, 0, [11]⟩, 0, 0⟩]
      (by decide) (by decide) (by decide)).1.2 0 (by decide)
